import Mathlib

/-!
Verification development for the convex-hull repository: a shallow embedding of
`src/geometry/graham_scan.py` and `src/geometry/jarvis_march.py` in Lean 4,
together with theorems settling the specification claims.

Modelling conventions:
* Python `float` coordinates are modelled as exact rationals (`ℚ`); all the
  arithmetic appearing in the source (subtraction, multiplication, comparison,
  absolute value, `min`/`max`) is carried over unchanged.
* Python lists used as stacks (append / pop / index `-1`, `-2` at the end) are
  modelled as Lean lists with the head as the top of the stack; the final result
  is reversed back into source order where the source returns the list.
* The unbounded `while True` loop of `jarvis_march` is modelled with an explicit
  fuel parameter; `none` means the loop has not finished within the given fuel,
  so `(∀ fuel, … = none)` states non-termination of the source loop.
-/

-- The arithmetic of `Rat` is `@[irreducible]` in the library, which prevents
-- `decide` from evaluating concrete rational computations; restore the default
-- reducibility for the four basic operations.
attribute [local semireducible] Rat.add Rat.sub Rat.mul Rat.inv

namespace PyHull

/-- `Point` from the source (both files define the same value type: two `float`
coordinates with field-wise equality). -/
structure Point where
  x : ℚ
  y : ℚ
deriving DecidableEq, Inhabited, Repr

/-- `Point.__lt__` from `graham_scan.py`: bottom-most, then left-most. -/
def point_lt (self other : Point) : Bool :=
  if self.y = other.y then decide (self.x < other.x) else decide (self.y < other.y)

/-- Python's `min(points)` over `__lt__`: fold keeping the current minimum,
replacing it only on strict `<` (so the first minimal element wins). -/
def minPoint (p : Point) (l : List Point) : Point :=
  l.foldl (fun m q => if point_lt q m then q else m) p

/-- `Point.consecutive_orientation` from `graham_scan.py`: the cross product of
the vectors `self -> point_a` and `point_a -> point_b`. -/
def Point.consecutive_orientation (self point_a point_b : Point) : ℚ :=
  (point_a.x - self.x) * (point_b.y - point_a.y) -
    (point_a.y - self.y) * (point_b.x - point_a.x)

/-- Squared Euclidean distance. The source's `euclidean_distance` returns the
square root; the algorithm only ever compares distances, and squaring is
strictly monotone on nonnegatives, so comparisons are unchanged. -/
def euclidean_distance_sq (a b : Point) : ℚ :=
  (a.x - b.x) ^ 2 + (a.y - b.y) ^ 2

/-- `compare_points` from `graham_scan.py` (the comparator handed to
`cmp_to_key` for the angular sort around `min_point`). -/
def compare_points (min_point point_a point_b : Point) : ℤ :=
  let orientation := Point.consecutive_orientation min_point point_a point_b
  if orientation < 0 then 1
  else if orientation > 0 then -1
  else
    let dist_a := euclidean_distance_sq min_point point_a
    let dist_b := euclidean_distance_sq min_point point_b
    if dist_b < dist_a then -1 else if dist_b > dist_a then 1 else 0

/-- The ordering induced by the comparator: `a` sorts no later than `b`.
`points_list.sort(key=cmp_to_key(compare_points))` is a stable sort by this
relation; `List.insertionSort` with the non-strict relation is such a sort. -/
def sortsBefore (min_point a b : Point) : Prop :=
  compare_points min_point a b ≤ 0

instance (min_point : Point) : DecidableRel (sortsBefore min_point) :=
  fun a b => inferInstanceAs (Decidable (compare_points min_point a b ≤ 0))

/-- The `while` loop of `graham_scan`'s main pass: pop stack entries while the
turn `(hull[-2], hull[-1], point)` is not strictly counter-clockwise.
The stack holds the hull with its head as the Python list's last element. -/
def grahamPop (point : Point) : List Point → List Point
  | top :: second :: rest =>
    if Point.consecutive_orientation second top point ≤ 0 then
      grahamPop point (second :: rest)
    else top :: second :: rest
  | hull => hull

/-- One iteration of `graham_scan`'s `for point in points_list[1:]` loop:
skip the point when it is collinear with `min_point` and the stack top,
otherwise pop non-counter-clockwise turns and push the point. -/
def grahamStep (min_point : Point) (hull : List Point) (point : Point) : List Point :=
  match hull with
  | top :: _ =>
    if Point.consecutive_orientation min_point point top = 0 then hull
    else point :: grahamPop point hull
  | [] => point :: hull  -- unreachable: the stack always has at least 2 entries

/-- `graham_scan` from `graham_scan.py`. -/
def graham_scan (points : List Point) : List Point :=
  if points.length ≤ 2 then []
  else
    match points with
    | [] => []  -- unreachable: length > 2
    | p :: ps =>
      let min_point := minPoint p ps
      let points_list := (p :: ps).filter (fun q => decide (q ≠ min_point))
      match points_list with
      | [] => []
      | q :: qs =>
        let sorted := List.insertionSort (sortsBefore min_point) (q :: qs)
        let hull := (sorted.drop 1).foldl (grahamStep min_point)
          [sorted.headD q, min_point]
        if hull.length ≤ 2 then [] else hull.reverse

/-- `_cross_product` from `jarvis_march.py`: cross product of vectors
`origin -> point_a` and `origin -> point_b`. -/
def cross_product (origin point_a point_b : Point) : ℚ :=
  (point_a.x - origin.x) * (point_b.y - origin.y) -
    (point_a.y - origin.y) * (point_b.x - origin.x)

/-- `_is_point_on_segment` from `jarvis_march.py`; the float literal `1e-9`
becomes the exact rational `1 / 1000000000`. -/
def is_point_on_segment (p1 p2 point : Point) : Bool :=
  let cross := (point.y - p1.y) * (p2.x - p1.x) - (point.x - p1.x) * (p2.y - p1.y)
  if |cross| > 1 / 1000000000 then false
  else decide (min p1.x p2.x ≤ point.x ∧ point.x ≤ max p1.x p2.x ∧
    min p1.y p2.y ≤ point.y ∧ point.y ≤ max p1.y p2.y)

/-- The leftmost-point scan of `jarvis_march` (ties broken by smaller `y`),
returning an index.  The source starts at index 0 and scans `range(1, n)`;
folding over `range(n)` is identical since the step at `i = 0` cannot fire. -/
def leftPointIdx (points : List Point) : ℕ :=
  (List.range points.length).foldl
    (fun l i =>
      if (points.getD i default).x < (points.getD l default).x ∨
          ((points.getD i default).x = (points.getD l default).x ∧
            (points.getD i default).y < (points.getD l default).y)
      then i else l)
    0

/-- The inner `for i in range(len(points))` scan of `jarvis_march`: starting
from `(current + 1) % n`, replace the candidate whenever
`_cross_product(points[current], points[i], points[next]) > 0`. -/
def selectNext (points : List Point) (current : ℕ) : ℕ :=
  (List.range points.length).foldl
    (fun next i =>
      if cross_product (points.getD current default) (points.getD i default)
          (points.getD next default) > 0
      then i else next)
    ((current + 1) % points.length)

/-- The hull update of `jarvis_march` (lines 190-198): if the newly selected
vertex lies on the segment between the previous two hull vertices, overwrite
the last hull vertex with it, otherwise append it.  The stack's head is the
Python list's last element. -/
def jarvisUpdate (hull : List Point) (point : Point) : List Point :=
  match hull with
  | last :: second :: rest =>
    if is_point_on_segment second last point then point :: second :: rest
    else point :: last :: second :: rest
  | _ => point :: hull

/-- The `while True` loop of `jarvis_march`, with explicit fuel; `none` means
the loop is still running after `fuel` iterations. -/
def jarvisLoop (points : List Point) (left : ℕ) :
    ℕ → ℕ → List Point → Option (List Point)
  | 0, _, _ => none
  | fuel + 1, current, hull =>
    let next := selectNext points current
    if next = left then some hull
    else jarvisLoop points left fuel next (jarvisUpdate hull (points.getD next default))

/-- The code of `jarvis_march` after its loop (lines 200-210): reject hulls of
at most 2 points, then drop the last vertex when the first point lies on the
segment between the last two, rejecting again if only 2 points remain.  The
argument is the hull stack (head = Python list's last element); the result is
in source order. -/
def jarvisFinish (hull : List Point) : List Point :=
  if hull.length ≤ 2 then []
  else
    match hull with
    | last :: second_last :: _ =>
      if is_point_on_segment second_last last (hull.getLastD default) then
        if hull.tail.length = 2 then [] else hull.tail.reverse
      else hull.reverse
    | _ => hull.reverse  -- unreachable: length > 2

/-- `jarvis_march` from `jarvis_march.py`, with explicit fuel for its loop.
`some result` is the list the source returns; `none` means the source loop has
not terminated within `fuel` iterations. -/
def jarvis_march (fuel : ℕ) (points : List Point) : Option (List Point) :=
  if points.length ≤ 2 then some []
  else
    (jarvisLoop points (leftPointIdx points) fuel (leftPointIdx points)
      [points.getD (leftPointIdx points) default]).map jarvisFinish

/-- Three points lie on a common line `a*x + b*y = c` with `(a, b) ≠ (0, 0)`.
This is the textbook notion of collinearity, stated independently of any cross
product, used to check the orientation predicates against their spec. -/
def Collinear3 (p q r : Point) : Prop :=
  ∃ a b c : ℚ, (a ≠ 0 ∨ b ≠ 0) ∧
    a * p.x + b * p.y = c ∧ a * q.x + b * q.y = c ∧ a * r.x + b * r.y = c

/-- `q` lies strictly outside the convex region spanned by the vertices `H`:
some affine functional is at most `c` on every vertex of `H` but exceeds `c`
at `q` (a strictly separating half-plane). -/
def strictlyOutside (q : Point) (H : List Point) : Prop :=
  ∃ a b c : ℚ, (∀ p ∈ H, a * p.x + b * p.y ≤ c) ∧ c < a * q.x + b * q.y

/-- The input of the repository's own `test_duplicate_points` unit test:
`[p1, p2, p3, p1, p2]` for `p1 = (0,0)`, `p2 = (1,0)`, `p3 = (0,1)`. -/
def Pdup : List Point := [⟨0, 0⟩, ⟨1, 0⟩, ⟨0, 1⟩, ⟨0, 0⟩, ⟨1, 0⟩]

/-- C1: on the five collinear points `(0,0), (1,0), (2,0), (3,0), (4,0)` the
claim (and the source's own doctest and `test_collinear_points`) demands that
both builders return the empty sequence.  `graham_scan` does, but
`jarvis_march` returns all five collinear points: its on-segment check tests
betweenness, which never holds for the farther point selected next on the
shared line, so every intermediate point is appended and the final length
check `len(convex_hull) <= 2` does not fire. -/
theorem jarvis_march_collinear_five_not_empty :
    jarvis_march 10 [⟨0, 0⟩, ⟨1, 0⟩, ⟨2, 0⟩, ⟨3, 0⟩, ⟨4, 0⟩] =
      some [⟨0, 0⟩, ⟨1, 0⟩, ⟨2, 0⟩, ⟨3, 0⟩, ⟨4, 0⟩] ∧
    graham_scan [⟨0, 0⟩, ⟨1, 0⟩, ⟨2, 0⟩, ⟨3, 0⟩, ⟨4, 0⟩] = [] := by
  constructor
  · decide
  · decide

/-- C2: the hull invariant (empty, or length ≥ 3 with no duplicate points and
no three consecutive collinear vertices) fails on the code: on the input
`[(0,0), (0,0), (1,0), (0,1)]` the duplicate of the start vertex sits right
after it, is selected as the first "next" vertex and appended, so
`jarvis_march` returns a non-empty hull of length 4 that contains the point
`(0,0)` twice (hence also a degenerate, non-strictly-convex triple). -/
theorem jarvis_march_output_violates_hull_invariant :
    jarvis_march 10 [⟨0, 0⟩, ⟨0, 0⟩, ⟨1, 0⟩, ⟨0, 1⟩] =
      some [⟨0, 0⟩, ⟨0, 0⟩, ⟨1, 0⟩, ⟨0, 1⟩] ∧
    ([⟨0, 0⟩, ⟨0, 0⟩, ⟨1, 0⟩, ⟨0, 1⟩] : List Point) ≠ [] ∧
    ¬ ([⟨0, 0⟩, ⟨0, 0⟩, ⟨1, 0⟩, ⟨0, 1⟩] : List Point).Nodup := by
  refine ⟨by decide, by decide, by decide⟩

/-- C3: the two builders do not return the same vertex set on every input with
at least 3 non-collinear points.  On `[(0,0), (1,0), (2,0), (0,2)]` (whose
points `(0,0), (2,0), (0,2)` are not collinear) both return sequences of
length ≥ 3, but `jarvis_march` keeps the mid-edge point `(1,0)` that
`graham_scan` correctly drops, so the vertex sets differ. -/
theorem builders_disagree_on_vertex_set :
    graham_scan [⟨0, 0⟩, ⟨1, 0⟩, ⟨2, 0⟩, ⟨0, 2⟩] = [⟨0, 0⟩, ⟨2, 0⟩, ⟨0, 2⟩] ∧
    jarvis_march 10 [⟨0, 0⟩, ⟨1, 0⟩, ⟨2, 0⟩, ⟨0, 2⟩] =
      some [⟨0, 0⟩, ⟨1, 0⟩, ⟨2, 0⟩, ⟨0, 2⟩] ∧
    (⟨1, 0⟩ : Point) ∈ ([⟨0, 0⟩, ⟨1, 0⟩, ⟨2, 0⟩, ⟨0, 2⟩] : List Point) ∧
    (⟨1, 0⟩ : Point) ∉ ([⟨0, 0⟩, ⟨2, 0⟩, ⟨0, 2⟩] : List Point) ∧
    Point.consecutive_orientation ⟨0, 0⟩ ⟨2, 0⟩ ⟨0, 2⟩ ≠ 0 := by
  refine ⟨by decide, by decide, by decide, by decide, by decide⟩

/-- Helper for C4: once the loop on `Pdup` reaches any of its reachable states,
it never returns.  States are loop-entry pairs (current index, hull stack);
after two steps the walk enters the 3-cycle of indices 2, 3, 4: from index 4
the scan strictly prefers the point of index 2 over the start vertex of index
0 (the duplicate of the start at index 3 never equals the start's index), so
`next_idx == left_point_idx` never holds. -/
theorem jarvisLoop_dup_cycle :
    ∀ (fuel current : ℕ) (hull : List Point),
      ((current = 0 ∧ hull = [⟨0, 0⟩]) ∨
        (current = 1 ∧ hull = [⟨1, 0⟩, ⟨0, 0⟩]) ∨
        (current = 2 ∧ ∃ t, hull = ⟨0, 1⟩ :: ⟨1, 0⟩ :: t) ∨
        (current = 3 ∧ ∃ t, hull = ⟨0, 0⟩ :: ⟨0, 1⟩ :: t) ∨
        (current = 4 ∧ ∃ t, hull = ⟨1, 0⟩ :: ⟨0, 0⟩ :: t)) →
      jarvisLoop Pdup 0 fuel current hull = none := by
  intro fuel
  induction fuel with
  | zero => intro current hull _; rfl
  | succ n ih =>
    intro current hull hInv
    rcases hInv with ⟨hc, hh⟩ | ⟨hc, hh⟩ | ⟨hc, t, hh⟩ | ⟨hc, t, hh⟩ | ⟨hc, t, hh⟩ <;>
      subst hc <;> subst hh
    · simp only [jarvisLoop]
      rw [show selectNext Pdup 0 = 1 from by decide, if_neg (by decide)]
      exact ih 1 _ (Or.inr (Or.inl ⟨rfl, by decide⟩))
    · simp only [jarvisLoop]
      rw [show selectNext Pdup 1 = 2 from by decide, if_neg (by decide)]
      exact ih 2 _ (Or.inr (Or.inr (Or.inl ⟨rfl, [⟨0, 0⟩], by decide⟩)))
    · simp only [jarvisLoop]
      rw [show selectNext Pdup 2 = 3 from by decide, if_neg (by decide)]
      refine ih 3 _ (Or.inr (Or.inr (Or.inr (Or.inl ⟨rfl, ⟨1, 0⟩ :: t, ?_⟩))))
      rw [show (Pdup.getD 3 default) = ⟨0, 0⟩ from rfl]
      simp only [jarvisUpdate]
      rw [if_neg (by decide)]
    · simp only [jarvisLoop]
      rw [show selectNext Pdup 3 = 4 from by decide, if_neg (by decide)]
      refine ih 4 _ (Or.inr (Or.inr (Or.inr (Or.inr ⟨rfl, ⟨0, 1⟩ :: t, ?_⟩))))
      rw [show (Pdup.getD 4 default) = ⟨1, 0⟩ from rfl]
      simp only [jarvisUpdate]
      rw [if_neg (by decide)]
    · simp only [jarvisLoop]
      rw [show selectNext Pdup 4 = 2 from by decide, if_neg (by decide)]
      refine ih 2 _ (Or.inr (Or.inr (Or.inl ⟨rfl, ⟨0, 0⟩ :: t, ?_⟩)))
      rw [show (Pdup.getD 2 default) = ⟨0, 1⟩ from rfl]
      simp only [jarvisUpdate]
      rw [if_neg (by decide)]

/-- C4: `jarvis_march` does not terminate on every finite input: on the
repository's own `test_duplicate_points` input
`[(0,0), (1,0), (0,1), (0,0), (1,0)]` the wrapping loop runs forever (for
every fuel bound the loop is still running), because the duplicate of the
start vertex at index 3 absorbs the hull closure: the loop can only stop when
the selected index equals the start index 0, which never happens.
`graham_scan` always terminates (it is structurally recursive), as witnessed
by its very definition in this file. -/
theorem jarvis_march_nonterminating_on_duplicates (fuel : ℕ) :
    jarvis_march fuel Pdup = none := by
  have hloop : jarvisLoop Pdup 0 fuel 0 [⟨0, 0⟩] = none :=
    jarvisLoop_dup_cycle fuel 0 _ (Or.inl ⟨rfl, rfl⟩)
  unfold jarvis_march
  rw [if_neg (by decide), show leftPointIdx Pdup = 0 from by decide,
    show (Pdup.getD 0 default) = ⟨0, 0⟩ from rfl, hloop]
  rfl

/-- C5: permuting the input changes `jarvis_march`'s vertex set.  The lists
`[(0,0), (1,0), (2,0), (0,2)]` and `[(0,0), (2,0), (1,0), (0,2)]` are
permutations of each other, yet the first run keeps the mid-edge point
`(1,0)` and the second does not. -/
theorem jarvis_march_not_permutation_invariant :
    ([⟨0, 0⟩, ⟨1, 0⟩, ⟨2, 0⟩, ⟨0, 2⟩] : List Point).Perm
      [⟨0, 0⟩, ⟨2, 0⟩, ⟨1, 0⟩, ⟨0, 2⟩] ∧
    jarvis_march 10 [⟨0, 0⟩, ⟨1, 0⟩, ⟨2, 0⟩, ⟨0, 2⟩] =
      some [⟨0, 0⟩, ⟨1, 0⟩, ⟨2, 0⟩, ⟨0, 2⟩] ∧
    jarvis_march 10 [⟨0, 0⟩, ⟨2, 0⟩, ⟨1, 0⟩, ⟨0, 2⟩] =
      some [⟨0, 0⟩, ⟨2, 0⟩, ⟨0, 2⟩] ∧
    (⟨1, 0⟩ : Point) ∈ ([⟨0, 0⟩, ⟨1, 0⟩, ⟨2, 0⟩, ⟨0, 2⟩] : List Point) ∧
    (⟨1, 0⟩ : Point) ∉ ([⟨0, 0⟩, ⟨2, 0⟩, ⟨0, 2⟩] : List Point) := by
  refine ⟨by decide, by decide, by decide, by decide, by decide⟩

/-- C6: an input point can end up strictly outside the returned hull.  On
`[(0,0), (1,0), (2,0), (1,0)]` the betweenness-based overwrite replaces the
extreme vertex `(2,0)` by the duplicate `(1,0)`, and `jarvis_march` returns
the non-empty "hull" `[(0,0), (1,0), (1,0)]`; the input point `(2,0)` lies
strictly outside it (the half-plane `x ≤ 1` contains every hull vertex but
not `(2,0)`). -/
theorem jarvis_march_leaves_input_point_outside :
    jarvis_march 10 [⟨0, 0⟩, ⟨1, 0⟩, ⟨2, 0⟩, ⟨1, 0⟩] =
      some [⟨0, 0⟩, ⟨1, 0⟩, ⟨1, 0⟩] ∧
    (⟨2, 0⟩ : Point) ∈ ([⟨0, 0⟩, ⟨1, 0⟩, ⟨2, 0⟩, ⟨1, 0⟩] : List Point) ∧
    (⟨2, 0⟩ : Point) ∉ ([⟨0, 0⟩, ⟨1, 0⟩, ⟨1, 0⟩] : List Point) ∧
    strictlyOutside ⟨2, 0⟩ [⟨0, 0⟩, ⟨1, 0⟩, ⟨1, 0⟩] := by
  refine ⟨by decide, by decide, by decide, 1, 0, 1, by decide, by decide⟩

/-- C7: when the newly selected vertex is collinear with and beyond the
previous two hull vertices, the claim says the last hull vertex is
overwritten; the code appends instead.  With the hull stack holding
`(0,0), (1,0)` (the state reached on the five collinear points) and the new
vertex `(2,0)` — collinear with, farther than, and not between the previous
two — `_is_point_on_segment` is `False`, so the update appends and keeps
`(1,0)`. -/
theorem jarvis_update_appends_collinear_beyond_vertex :
    cross_product ⟨0, 0⟩ ⟨1, 0⟩ ⟨2, 0⟩ = 0 ∧
    euclidean_distance_sq ⟨0, 0⟩ ⟨1, 0⟩ < euclidean_distance_sq ⟨0, 0⟩ ⟨2, 0⟩ ∧
    is_point_on_segment ⟨0, 0⟩ ⟨1, 0⟩ ⟨2, 0⟩ = false ∧
    jarvisUpdate [⟨1, 0⟩, ⟨0, 0⟩] ⟨2, 0⟩ = [⟨2, 0⟩, ⟨1, 0⟩, ⟨0, 0⟩] := by
  refine ⟨by decide, by decide, by decide, by decide⟩

/-- C8: the angular comparator of `graham_scan`.  `compare_points` returns
`-1` (point A precedes point B) exactly when `orientation(pivot, A, B) > 0`,
or when the orientation is zero and B is strictly nearer to the pivot than A
(the farther point sorts first); symmetrically for `1`, and `0` exactly for
collinear equidistant points.  Distances are compared via their squares,
which is equivalent since the square root is strictly monotone. -/
theorem compare_points_spec (min_point a b : Point) :
    (compare_points min_point a b = -1 ↔
      (0 < Point.consecutive_orientation min_point a b ∨
        (Point.consecutive_orientation min_point a b = 0 ∧
          euclidean_distance_sq min_point b < euclidean_distance_sq min_point a))) ∧
    (compare_points min_point a b = 1 ↔
      (Point.consecutive_orientation min_point a b < 0 ∨
        (Point.consecutive_orientation min_point a b = 0 ∧
          euclidean_distance_sq min_point a < euclidean_distance_sq min_point b))) ∧
    (compare_points min_point a b = 0 ↔
      (Point.consecutive_orientation min_point a b = 0 ∧
        euclidean_distance_sq min_point a = euclidean_distance_sq min_point b)) := by
  simp only [compare_points]
  rcases lt_trichotomy (Point.consecutive_orientation min_point a b) 0 with h | h | h
  · rw [if_pos h]
    have h1 : ¬ 0 < Point.consecutive_orientation min_point a b := not_lt.2 h.le
    have h2 : Point.consecutive_orientation min_point a b ≠ 0 := ne_of_lt h
    refine ⟨by simp [h1, h2], by simp [h], by simp [h2]⟩
  · rw [if_neg (by rw [h]; exact lt_irrefl 0), if_neg (by rw [h]; exact lt_irrefl 0)]
    rcases lt_trichotomy (euclidean_distance_sq min_point b)
        (euclidean_distance_sq min_point a) with hd | hd | hd
    · rw [if_pos hd]
      refine ⟨by simp [h, hd], by simp [hd.not_lt, lt_irrefl, h], by simp [h, hd.ne']⟩
    · rw [hd]
      refine ⟨by simp [h, lt_irrefl], by simp [h, lt_irrefl], by simp [h]⟩
    · rw [if_neg (not_lt.2 hd.le), if_pos hd]
      refine ⟨by simp [hd.not_lt, lt_irrefl, h], by simp [h, hd], by simp [h, hd.ne]⟩
  · rw [if_neg (not_lt.2 h.le), if_pos h]
    have h2 : Point.consecutive_orientation min_point a b ≠ 0 := ne_of_gt h
    refine ⟨by simp [h], by simp [not_lt.2 h.le, h2], by simp [h2]⟩

/-- C9: both orientation predicates compute the exact signed cross product of
their convention's two vectors — `consecutive_orientation` that of
`(self → a, a → b)`, `_cross_product` that of `(origin → a, origin → b)` —
and the two agree as functions; each is exactly zero if and only if the three
points lie on a common line (independent textbook definition `Collinear3`),
with no epsilon tolerance.  Both are pure total functions of their arguments
(they are plain `def`s here), so no side effects or error conditions exist. -/
theorem orientation_predicates_exact (o a b : Point) :
    cross_product o a b =
      (a.x - o.x) * (b.y - o.y) - (a.y - o.y) * (b.x - o.x) ∧
    Point.consecutive_orientation o a b =
      (a.x - o.x) * (b.y - a.y) - (a.y - o.y) * (b.x - a.x) ∧
    Point.consecutive_orientation o a b = cross_product o a b ∧
    (cross_product o a b = 0 ↔ Collinear3 o a b) ∧
    (Point.consecutive_orientation o a b = 0 ↔ Collinear3 o a b) := by
  have heq : Point.consecutive_orientation o a b = cross_product o a b := by
    unfold Point.consecutive_orientation cross_product; ring
  have hiff : cross_product o a b = 0 ↔ Collinear3 o a b := by
    constructor
    · intro h
      by_cases ha : a.x - o.x = 0 ∧ a.y - o.y = 0
      · by_cases hb : b.x - o.x = 0 ∧ b.y - o.y = 0
        · exact ⟨1, 0, o.x, Or.inl one_ne_zero, by ring,
            by linear_combination ha.1, by linear_combination hb.1⟩
        · refine ⟨b.y - o.y, -(b.x - o.x), (b.y - o.y) * o.x - (b.x - o.x) * o.y,
            ?_, by ring, ?_, by ring⟩
          · rcases not_and_or.1 hb with hbx | hby
            · exact Or.inr (neg_ne_zero.2 hbx)
            · exact Or.inl hby
          · linear_combination (b.y - o.y) * ha.1 - (b.x - o.x) * ha.2
      · refine ⟨a.y - o.y, -(a.x - o.x), (a.y - o.y) * o.x - (a.x - o.x) * o.y,
          ?_, by ring, by ring, ?_⟩
        · rcases not_and_or.1 ha with hax | hay
          · exact Or.inr (neg_ne_zero.2 hax)
          · exact Or.inl hay
        · unfold cross_product at h
          linear_combination -h
    · rintro ⟨u, v, w, hne, h1, h2, h3⟩
      have e1 : u * (a.x - o.x) + v * (a.y - o.y) = 0 := by linear_combination h2 - h1
      have e2 : u * (b.x - o.x) + v * (b.y - o.y) = 0 := by linear_combination h3 - h1
      rcases hne with hu | hv
      · have key : u * cross_product o a b = 0 := by
          unfold cross_product
          linear_combination (b.y - o.y) * e1 - (a.y - o.y) * e2
        exact (mul_eq_zero.1 key).resolve_left hu
      · have key : v * cross_product o a b = 0 := by
          unfold cross_product
          linear_combination (a.x - o.x) * e2 - (b.x - o.x) * e1
        exact (mul_eq_zero.1 key).resolve_left hv
  exact ⟨rfl, rfl, heq, hiff, by rw [heq]; exact hiff⟩

/-- C10: `jarvis_march` is not idempotent.  On `[(0,0), (1,0), (2,0), (1,0)]`
it returns the non-empty list `[(0,0), (1,0), (1,0)]`, but running it again on
that output returns the empty list, a different set of points. -/
theorem jarvis_march_not_idempotent :
    jarvis_march 10 [⟨0, 0⟩, ⟨1, 0⟩, ⟨2, 0⟩, ⟨1, 0⟩] =
      some [⟨0, 0⟩, ⟨1, 0⟩, ⟨1, 0⟩] ∧
    jarvis_march 10 [⟨0, 0⟩, ⟨1, 0⟩, ⟨1, 0⟩] = some [] ∧
    (⟨0, 0⟩ : Point) ∈ ([⟨0, 0⟩, ⟨1, 0⟩, ⟨1, 0⟩] : List Point) ∧
    (⟨0, 0⟩ : Point) ∉ ([] : List Point) := by
  refine ⟨by decide, by decide, by decide, by decide⟩

end PyHull
